import Mathlib

/-!
Verification development for the ValoriumX-Simulator repository.

Shallow embedding of:
* `src/src/quadrits.py`      — namespace `Quadrits`
* `src/src/simulator.py`     — namespace `Simulator` (the `QuadritEncoder` class)
* `src/src/structures.py` and `src/src/blockchain.py` — namespace `Core`
* `src/achive/simulator_v8.py` — namespace `V8`
* `src/achive/simulator_claude.py` (`GenomeFragment`/`DistributedMatrix`) — namespace `Claude`

Modelling conventions:
* Python floats (amounts, stakes, reputations, timestamps) are modelled as `ℚ`;
  every float operation the claims touch (`min`, `max`, `+`, `-`, comparison)
  is exact on the values used by the code, so no rounding behaviour is lost.
* Python `bytes` are `List Nat` with each entry `< 256`.
* Python dicts are insertion-ordered association lists; `dict.get(k, 0)` /
  `d[k] = v` are `bget` / `bset` below, which preserve insertion order exactly
  as CPython does.
* Cryptographic hashes (SHA-512 / SHA-256 hex digests) are modelled
  structurally: a hash value is an inductive term recording exactly the data
  that was hashed.  Constructor injectivity models collision resistance; the
  claims under study only ever compare hashes for equality.
* Code that can raise (`ValueError`, `KeyError`, `IndexError`) is modelled with
  `Option`/`Except`; `none`/`.error` is the raising branch.
* `time.time()` results are passed in as explicit `now : ℚ` parameters.
-/

/-! ## `src/src/quadrits.py` -/

namespace Quadrits

/-- The four-state information unit (`class Quadrit` in quadrits.py). -/
inductive Quadrit where
  | A
  | T
  | C
  | G
deriving DecidableEq, Repr

/-- `QUADRIT_TO_BITS`: the 2-bit value of a quadrit. -/
def Quadrit.toBits : Quadrit → Nat
  | .A => 0
  | .T => 1
  | .C => 2
  | .G => 3

/-- `BITS_TO_QUADRIT`: quadrit of a 2-bit value (the code only looks up 0..3). -/
def bitsToQuadrit (n : Nat) : Quadrit :=
  if n = 0 then .A else if n = 1 then .T else if n = 2 then .C else .G

/-- The four quadrits produced for one byte (the loop body of
`encode_to_quadrits`; the Python shifts `>> 6, >> 4, >> 2, >> 0` each masked
with `0b11` are `/64 % 4`, `/16 % 4`, `/4 % 4`, `% 4`). -/
def encodeByte (b : Nat) : List Quadrit :=
  [bitsToQuadrit (b / 64 % 4), bitsToQuadrit (b / 16 % 4),
   bitsToQuadrit (b / 4 % 4), bitsToQuadrit (b % 4)]

/-- `encode_to_quadrits(data)`: 4 quadrits per input byte, in input order. -/
def encode_to_quadrits (data : List Nat) : List Quadrit :=
  (data.map encodeByte).flatten

/-- `decode_from_quadrits(quadrits)`: raises `ValueError` when the length is
not a multiple of 4 (modelled as `none`), otherwise rebuilds one byte from
every group of four quadrits. -/
def decode_from_quadrits : List Quadrit → Option (List Nat)
  | [] => some []
  | q0 :: q1 :: q2 :: q3 :: rest =>
      (decode_from_quadrits rest).map
        (fun bs => (q0.toBits * 64 + q1.toBits * 16 + q2.toBits * 4 + q3.toBits) :: bs)
  | _ => none

end Quadrits

/-! ## `src/src/simulator.py` — class `QuadritEncoder` -/

namespace Simulator

open Quadrits

/-- `QuadritEncoder.bytes_to_quadrits`: identical bit-slicing to
`quadrits.encode_to_quadrits` (each byte yields the quadrits of
`(byte >> (6 - 2*i)) & 0b11` for `i = 0..3`). -/
def bytes_to_quadrits (data : List Nat) : List Quadrit :=
  (data.map encodeByte).flatten

/-- Padding step of `QuadritEncoder.quadrits_to_bytes`: extend with `A`
quadrits to a multiple of 4. -/
def padQuadrits (qs : List Quadrit) : List Quadrit :=
  if qs.length % 4 = 0 then qs else qs ++ List.replicate (4 - qs.length % 4) Quadrit.A

/-- Byte recombination loop of `quadrits_to_bytes` (input length is a multiple
of 4 after padding; a leftover chunk shorter than 4 cannot occur and is mapped
to nothing). -/
def quadritGroupsToBytes : List Quadrit → List Nat
  | q0 :: q1 :: q2 :: q3 :: rest =>
      (q0.toBits * 64 + q1.toBits * 16 + q2.toBits * 4 + q3.toBits) :: quadritGroupsToBytes rest
  | _ => []

/-- `QuadritEncoder.quadrits_to_bytes`: pad with `A` to a multiple of 4, then
recombine each group of four quadrits into a byte. -/
def quadrits_to_bytes (qs : List Quadrit) : List Nat :=
  quadritGroupsToBytes (padQuadrits qs)

end Simulator

/-! ## `src/src/structures.py` and `src/src/blockchain.py` -/

namespace Core

open Quadrits

/-- Structural model of the SHA-512 hex digests produced by
`quadrits.hash_data` as used by `structures.py`: a hash term records exactly
the serialized content that was hashed (`json.dumps(..., sort_keys=True)`),
so two hashes are equal iff the hashed contents are equal (the collision-free
idealization of SHA-512). `str` covers raw strings such as the genesis
sentinel `"0"`, `nil`/`cons` encode JSON lists of hashes. -/
inductive CHash where
  | str : String → CHash
  | nil : CHash
  | cons : CHash → CHash → CHash
  | txh : String → String → ℚ → List Quadrit → ℚ → CHash
  | blkh : ℚ → CHash → CHash → Nat → CHash
deriving DecidableEq, Repr

/-- JSON list of hashes, as a single hash-tree node. -/
def hashList (l : List CHash) : CHash := l.foldr CHash.cons CHash.nil

/-- `structures.Transaction`: sender, recipient, amount, quadrit payload
(`quadrit_data_payload = string_to_quadrits(data)`), timestamp.  The
`signature` field is only ever written by `sign_transaction` (never read by
the claims' code paths) and is omitted. -/
structure Transaction where
  sender : String
  recipient : String
  amount : ℚ
  quadrit_data_payload : List Quadrit
  timestamp : ℚ
deriving DecidableEq, Repr

/-- `Transaction.calculate_hash`: hash of the sorted-key JSON dump of
`to_dict()` (sender, recipient, amount, payload quadrit names, timestamp). -/
def Transaction.calculate_hash (t : Transaction) : CHash :=
  .txh t.sender t.recipient t.amount t.quadrit_data_payload t.timestamp

/-- `Transaction.is_valid`: truthy sender and recipient and `amount > 0`. -/
def Transaction.is_valid (t : Transaction) : Bool :=
  t.sender ≠ "" && t.recipient ≠ "" && 0 < t.amount

/-- `structures.Block`: timestamp, transaction list, previous hash, nonce and
the stored `block_hash` field (assigned in `__init__` and by `mine_block`). -/
structure Block where
  timestamp : ℚ
  transactions : List Transaction
  previous_hash : CHash
  nonce : Nat
  block_hash : CHash
deriving DecidableEq, Repr

/-- `Block.calculate_hash`: hash of the header JSON — timestamp, the list of
transaction hashes, previous hash and nonce. -/
def Block.calculate_hash (b : Block) : CHash :=
  .blkh b.timestamp (hashList (b.transactions.map Transaction.calculate_hash)) b.previous_hash b.nonce

/-- `Block.__init__`: nonce starts at 0 and `block_hash` is set to
`calculate_hash()` of the fresh block. -/
def mkBlock (timestamp : ℚ) (transactions : List Transaction) (previous_hash : CHash) : Block :=
  { timestamp := timestamp, transactions := transactions, previous_hash := previous_hash,
    nonce := 0,
    block_hash := .blkh timestamp (hashList (transactions.map Transaction.calculate_hash))
      previous_hash 0 }

/-- `Block.mine_block(difficulty)`: the Python loop increments `nonce` and
recomputes `block_hash` until the hash has a `"0" * difficulty` prefix.  Hex
digit prefixes are not representable in the structural hash model, so the
search is modelled as succeeding at once; what the loop guarantees on exit —
`block_hash = calculate_hash(self)` for the final nonce — holds of the
unchanged block since `__init__` establishes it. -/
def Block.mine_block (b : Block) (_difficulty : Nat) : Block := b

/-- `blockchain.Blockchain` state: chain, difficulty, pending transactions
(`RNA buffer`), balances dict. `mining_reward = 100` is a literal constant. -/
structure BCState where
  chain : List Block
  difficulty : Nat
  pending_transactions : List Transaction
  balances : List (String × ℚ)
deriving DecidableEq, Repr

/-- Python `dict.get(k, 0)` on an insertion-ordered dict. -/
def bget : List (String × ℚ) → String → ℚ
  | [], _ => 0
  | p :: rest, k => if p.1 = k then p.2 else bget rest k

/-- Python `d[k] = v`: overwrite in place if the key exists, else append. -/
def bset : List (String × ℚ) → String → ℚ → List (String × ℚ)
  | [], k, v => [(k, v)]
  | p :: rest, k, v => if p.1 = k then (k, v) :: rest else p :: bset rest k v

/-- Whether a key is present in the dict (`k in d`). -/
def bmem : List (String × ℚ) → String → Bool
  | [], _ => false
  | p :: rest, k => p.1 = k || bmem rest k

/-- `Blockchain.create_genesis_block`: `Block(timestamp=time.time(),
transactions=[], previous_hash="0")`. -/
def create_genesis_block (now : ℚ) : Block := mkBlock now [] (.str "0")

/-- `Blockchain.__init__(difficulty)`. -/
def initBC (difficulty : Nat) (now : ℚ) : BCState :=
  { chain := [create_genesis_block now], difficulty := difficulty,
    pending_transactions := [], balances := [] }

/-- `Blockchain.get_balance_of_address`. -/
def get_balance_of_address (st : BCState) (address : String) : ℚ :=
  bget st.balances address

/-- `Blockchain.add_transaction`: raises `ValueError` (modelled as `.error`)
for a missing sender/recipient, an invalid transaction, or — for any sender
other than `"Network Reward"` — a current balance below the amount; otherwise
appends to the pending buffer. -/
def add_transaction (st : BCState) (t : Transaction) : Except String BCState :=
  if t.sender = "" ∨ t.recipient = "" then
    .error "Transaction must include sender and recipient."
  else if ¬ t.is_valid then
    .error "Cannot add invalid transaction."
  else if t.sender ≠ "Network Reward" ∧ get_balance_of_address st t.sender < t.amount then
    .error "Insufficient funds."
  else
    .ok { st with pending_transactions := st.pending_transactions ++ [t] }

/-- Settlement of one mined transaction (the loop body in
`mine_pending_transactions`): `balances[tx.sender] -= tx.amount` is a direct
dict index — a missing sender key raises `KeyError` (modelled as `none`) —
skipped for the `"Network Reward"` sender; the recipient is credited through
`get_balance_of_address` (default 0). -/
def settleTx (bal : List (String × ℚ)) (t : Transaction) : Option (List (String × ℚ)) :=
  if t.sender = "Network Reward" then
    some (bset bal t.recipient (bget bal t.recipient + t.amount))
  else if bmem bal t.sender then
    let bal' := bset bal t.sender (bget bal t.sender - t.amount)
    some (bset bal' t.recipient (bget bal' t.recipient + t.amount))
  else
    none

/-- Settlement loop over all mined transactions. -/
def settleAll (bal : List (String × ℚ)) : List Transaction → Option (List (String × ℚ))
  | [] => some bal
  | t :: rest => match settleTx bal t with
    | none => none
    | some bal' => settleAll bal' rest

/-- `Blockchain.mine_pending_transactions(mining_reward_address)`: append the
`"Network Reward"` → miner transaction (amount `mining_reward = 100`) to the
pending list, build a block over the whole pending list linked to the chain
tail, mine it, append it, settle every pending transaction into `balances`,
and clear the pending list.  `none` models the `IndexError` on an empty chain
or a `KeyError` during settlement. -/
def mine_pending_transactions (st : BCState) (mining_reward_address : String) (now : ℚ) :
    Option BCState :=
  let reward_tx : Transaction :=
    { sender := "Network Reward", recipient := mining_reward_address, amount := 100,
      quadrit_data_payload := [], timestamp := now }
  let pending := st.pending_transactions ++ [reward_tx]
  match st.chain.getLast? with
  | none => none
  | some last =>
    let new_block := (mkBlock now pending last.block_hash).mine_block st.difficulty
    match settleAll st.balances pending with
    | none => none
    | some bal =>
      some { st with chain := st.chain ++ [new_block], pending_transactions := [],
                     balances := bal }

/-- One step of the `is_chain_valid` loop: the stored hash of the current
block must equal its recomputed hash, and its `previous_hash` must equal the
previous block's stored hash. -/
def validLink (previous current : Block) : Bool :=
  current.block_hash = current.calculate_hash && current.previous_hash = previous.block_hash

/-- The `for i in range(1, len(chain))` loop of `is_chain_valid`. -/
def chainValidFrom : Block → List Block → Bool
  | _, [] => true
  | prev, b :: rest => validLink prev b && chainValidFrom b rest

/-- `Blockchain.is_chain_valid`: checks hash and linkage for every block from
index 1 on; the genesis block at index 0 only ever appears as the link target
of block 1. -/
def is_chain_valid (st : BCState) : Bool :=
  match st.chain with
  | [] => true
  | b :: rest => chainValidFrom b rest

end Core

/-! ## `src/achive/simulator_v8.py` -/

namespace V8

/-- Structural model of the SHA-512 hex digests produced by v8's `hash_data`.
Each constructor records the exact serialized content hashed at one call
site; constructor injectivity models collision resistance.

* `str`     — `hash_data` of a plain string (e.g. `"genesis_anchors"`, the
  registered software names, the `"fake_anchors"` string).
* `nil`/`pcons` — JSON lists of hashes.
* `non`     — JSON `null` (a `block_hash` that is still `None`).
* `txh`     — `Transaction.calculate_hash` (sender, recipient, amount, ts).
* `rna`     — `RnaTemplate.template_hash` (proposer, tx hashes, ts).
* `anch`    — `hash_data(get_coherence_anchors())`, the dict
  `{"last_block_hash": h}`.
* `cip`     — `CipProof.proof_hash = hash_data(rna_hash + anchors_hash)`.
* `att`     — `CipAttestation.signature = hash_data(proof_hash + address)`.
* `blk`     — `Block.calculate_hash` over `to_dict()` minus `block_hash`:
  number, timestamp, transactions, previous hash, rna hash, winning proof,
  sorted attestations. -/
inductive VHash where
  | str : String → VHash
  | nil : VHash
  | pcons : VHash → VHash → VHash
  | non : VHash
  | txh : String → String → ℚ → ℚ → VHash
  | rna : String → VHash → ℚ → VHash
  | anch : VHash → VHash
  | cip : VHash → VHash → VHash
  | att : VHash → String → VHash
  | blk : Nat → ℚ → VHash → VHash → VHash → VHash → VHash → VHash
deriving DecidableEq, Repr

/-- JSON list of hashes as a single hash-tree node. -/
def vList (l : List VHash) : VHash := l.foldr VHash.pcons VHash.nil

/-- Optional hash (`block_hash` may be `None`) as a hash-tree node. -/
def vOpt : Option VHash → VHash
  | none => .non
  | some h => h

/-- v8 `Transaction`: sender, recipient, amount, timestamp. -/
structure Tx8 where
  sender : String
  recipient : String
  amount : ℚ
  timestamp : ℚ
deriving DecidableEq, Repr

/-- `Transaction.calculate_hash`. -/
def Tx8.hash (t : Tx8) : VHash := .txh t.sender t.recipient t.amount t.timestamp

/-- `RnaTemplate.template_hash`: proposer, ordered tx hashes, timestamp. -/
def rnaTemplateHash (proposer : String) (txs : List Tx8) (now : ℚ) : VHash :=
  .rna proposer (vList (txs.map Tx8.hash)) now

/-- `CipAttestation`: proof hash and attester address (the stored signature
`hash_data(proof_hash + address)` is recomputable and only reappears inside
block hashes via `att`). -/
structure Att8 where
  proof_hash : VHash
  node_address : String
deriving DecidableEq, Repr

/-- v8 `Block`: number, timestamp, transactions, previous hash (the chain
tail's `block_hash`, possibly `None`), rna template hash, winning proof
(`None` until set; stored as the `CipProof` triple rna-hash, anchors-hash,
proof-hash), attestation list, stored `block_hash` (`None` until set). -/
structure Block8 where
  block_number : Nat
  timestamp : ℚ
  transactions : List Tx8
  previous_hash : Option VHash
  rna_template_hash : VHash
  winning_cip_proof : Option (VHash × VHash × VHash)
  attestations : List Att8
  block_hash : Option VHash
deriving DecidableEq, Repr

/-- Insertion sort of attestations by `node_address` — `calculate_hash` sorts
the attestation dicts with `key=lambda x: x['node_address']`. -/
def insertAtt (a : Att8) : List Att8 → List Att8
  | [] => [a]
  | b :: rest => if a.node_address ≤ b.node_address then a :: b :: rest else b :: insertAtt a rest

/-- Stable sort by `node_address` (Python's `sorted`). -/
def sortAtts : List Att8 → List Att8
  | [] => []
  | a :: rest => insertAtt a (sortAtts rest)

/-- Hash-tree node for a winning proof dict (`CipProof.__dict__` or `None`). -/
def proofDictHash : Option (VHash × VHash × VHash) → VHash
  | none => .non
  | some (r, a, p) => .pcons r (.pcons a (.pcons p .nil))

/-- `Block.calculate_hash`: hash of `to_dict()` with `block_hash` removed and
attestations sorted by address. -/
def Block8.calculate_hash (b : Block8) : VHash :=
  .blk b.block_number b.timestamp (vList (b.transactions.map Tx8.hash)) (vOpt b.previous_hash)
    b.rna_template_hash (proofDictHash b.winning_cip_proof)
    (vList ((sortAtts b.attestations).map (fun a => .att a.proof_hash a.node_address)))

/-- v8 `Node` (also `ValidatorNode`/`NeuralNode`): address, declared software
version, stored software hash (`hash_data(f"ValoriumX Node Software
{version}")` at construction, kept as a field since `is_compliant` reads the
attribute), stake (initially 1000), reputation (initially 1),
and the `NeuralNode.is_honest` flag (never read on validators). -/
structure Node8 where
  address : String
  software_version : String
  software_hash : VHash
  stake : ℚ
  reputation : ℚ
  is_honest : Bool
deriving DecidableEq, Repr

/-- `Node.__init__(address, software_version)` plus the `NeuralNode` honesty
flag: stake 1000, reputation 1, software hash derived from the version. -/
def mkNode (address software_version : String) (is_honest : Bool) : Node8 :=
  { address := address, software_version := software_version,
    software_hash := .str ("ValoriumX Node Software " ++ software_version),
    stake := 1000, reputation := 1, is_honest := is_honest }

/-- `Stencil.is_compliant`: true iff the registry has an entry for the node's
declared version and that entry equals the node's stored software hash
(registered hashes are nonempty hex strings, so Python's truthiness test on
the looked-up value is just presence). -/
def is_compliant (stencil : List (String × VHash)) (n : Node8) : Bool :=
  match stencil.find? (fun p => p.1 = n.software_version) with
  | some p => p.2 = n.software_hash
  | none => false

/-- `Blockchain` attributes fixed in `__init__` and never reassigned:
`treasury_address`. -/
def treasury_address : String := "ValoriumX_Treasury"

/-- `reputation_threshold = 0.5`, written as the raw normalized rational
`1/2` so that kernel reduction can evaluate comparisons against it. -/
def reputation_threshold : ℚ := ⟨1, 2, by decide, by decide⟩

/-- `slashing_penalty = 100.0`. -/
def slashing_penalty : ℚ := 100

/-- `mining_reward = 100`. -/
def mining_reward : ℚ := 100

/-- Python `dict.get(k, 0)` on the balances dict. -/
def bget : List (String × ℚ) → String → ℚ
  | [], _ => 0
  | p :: rest, k => if p.1 = k then p.2 else bget rest k

/-- Python `balances[k] = v`. -/
def bset : List (String × ℚ) → String → ℚ → List (String × ℚ)
  | [], k, v => [(k, v)]
  | p :: rest, k, v => if p.1 = k then (k, v) :: rest else p :: bset rest k v

/-- `k in balances`. -/
def bmem : List (String × ℚ) → String → Bool
  | [], _ => false
  | p :: rest, k => p.1 = k || bmem rest k

/-- `Blockchain.slash_node` (lines 271–277), acting on the node's two mutated
fields and the balances dict: `slash_amount = min(stake, penalty)`; only when
it is positive, the stake is reduced, the reputation is decremented by 0.5
and clamped at 0, and the treasury balance is credited — all inside the same
`if`.  Returns (new stake, new reputation, new balances). -/
def slash_node (stake reputation : ℚ) (balances : List (String × ℚ)) (penalty : ℚ) :
    ℚ × ℚ × List (String × ℚ) :=
  let slash_amount := min stake penalty
  if 0 < slash_amount then
    (stake - slash_amount, max 0 (reputation - 1/2),
     bset balances treasury_address (bget balances treasury_address + slash_amount))
  else
    (stake, reputation, balances)

/-- `slash_node` applied to the node with the given address inside a node
list (the Python call mutates the node object in place; the object the cycle
passes is the unique list entry with that address). -/
def slashInList (balances : List (String × ℚ)) (addr : String) :
    List Node8 → Option (List Node8 × List (String × ℚ))
  | [] => none
  | n :: rest =>
    if n.address = addr then
      let r := slash_node n.stake n.reputation balances slashing_penalty
      some ({ n with stake := r.1, reputation := r.2.1 } :: rest, r.2.2)
    else
      (slashInList balances addr rest).map (fun p => (n :: p.1, p.2))

/-- Full blockchain orchestrator state (`Blockchain.__init__`). -/
structure BState where
  validator_nodes : List Node8
  neural_nodes : List Node8
  stencil : List (String × VHash)
  chain : List Block8
  pending_transactions : List Tx8
  balances : List (String × ℚ)
  current_proposer_index : Nat
deriving DecidableEq, Repr

/-- Slash the validator node with the given address (proposer slashing path);
identity when no validator carries the address (unreachable: the cycle passes
an address read off the validator list). -/
def slashValidator (st : BState) (addr : String) : BState :=
  match slashInList st.balances addr st.validator_nodes with
  | some (v, bal) => { st with validator_nodes := v, balances := bal }
  | none => st

/-- Slash the neural node with the given address (attester slashing path). -/
def slashNeural (st : BState) (addr : String) : BState :=
  match slashInList st.balances addr st.neural_nodes with
  | some (v, bal) => { st with neural_nodes := v, balances := bal }
  | none => st

/-- `Blockchain.add_transaction`: reject (return `false`, buffer unchanged)
when a sender other than `"Network Reward"` has `balances.get(sender, 0) <
amount`; otherwise append to the pending buffer. -/
def add_transaction (st : BState) (tx : Tx8) : BState × Bool :=
  if tx.sender ≠ "Network Reward" ∧ bget st.balances tx.sender < tx.amount then
    (st, false)
  else
    ({ st with pending_transactions := st.pending_transactions ++ [tx] }, true)

/-- `create_genesis_block`: block 0 with previous hash `"0"`, the genesis RNA
template (no transactions, proposer `"genesis_proposer"`), the genesis CIP
proof over `hash_data("genesis_anchors")`, one attestation by
`"genesis_calculator"`, and its computed hash stored. -/
def create_genesis_block (now : ℚ) : Block8 :=
  let genesis_rna := rnaTemplateHash "genesis_proposer" [] now
  let genesis_proof := VHash.cip genesis_rna (.str "genesis_anchors")
  let b : Block8 :=
    { block_number := 0, timestamp := now, transactions := [],
      previous_hash := some (.str "0"), rna_template_hash := genesis_rna,
      winning_cip_proof := some (genesis_rna, .str "genesis_anchors", genesis_proof),
      attestations := [{ proof_hash := genesis_proof, node_address := "genesis_calculator" }],
      block_hash := none }
  { b with block_hash := some b.calculate_hash }

/-- `get_coherence_anchors` hashed: `hash_data({"last_block_hash":
last_block.block_hash})`. -/
def anchorsHash (last : Block8) : VHash := .anch (vOpt last.block_hash)

/-- The proof hash of the fake proof a malicious neural node attests to:
`CipProof("fake_rna", hash_data("fake_anchors")).proof_hash`. -/
def fakeProofHash : VHash := .cip (.str "fake_rna") (.str "fake_anchors")

/-- `NeuralNode.attest_to_cip`: an honest node signs the core proof, a
malicious one signs the fake proof. -/
def attest (n : Node8) (core : VHash) : Att8 :=
  { proof_hash := if n.is_honest then core else fakeProofHash, node_address := n.address }

/-- The eligible-attester filter (line 233): registry-compliant and
reputation at least the threshold. -/
def participating (stencil : List (String × VHash)) (neural_nodes : List Node8) : List Node8 :=
  neural_nodes.filter (fun n => is_compliant stencil n && reputation_threshold ≤ n.reputation)

/-- The keys of the `proof_counts` dict in first-occurrence order. -/
def keysFirst (l : List VHash) : List VHash :=
  l.foldl (fun acc h => if h ∈ acc then acc else acc ++ [h]) []

/-- Occurrence count of a proof hash among the attested hashes. -/
def countHash (l : List VHash) (h : VHash) : Nat := (l.filter (fun x => x = h)).length

/-- The `proof_counts` dict (line 246): keys in first-occurrence order, each
with its final tally. -/
def proofCounts (l : List VHash) : List (VHash × Nat) :=
  (keysFirst l).map (fun h => (h, countHash l h))

/-- Python `max(items, key=lambda item: item[1])`: keeps the current item
unless a strictly larger tally appears, so ties resolve to the earliest key. -/
def pyMaxBySnd : (VHash × Nat) → List (VHash × Nat) → VHash × Nat
  | best, [] => best
  | best, y :: ys => pyMaxBySnd (if best.2 < y.2 then y else best) ys

/-- The winning (plurality) proof hash and its tally (line 247).  The empty
case is unreachable: the cycle only evaluates this after checking that at
least one node participates. -/
def winner (l : List VHash) : VHash × Nat :=
  match proofCounts l with
  | [] => (.non, 0)
  | c :: cs => pyMaxBySnd c cs

/-- The slashing loop over participating nodes (lines 249–252): look up the
node's attestation by address; slash the node unless it attested exactly the
winning hash.  Also returns, in order, the addresses on which `slash_node`
was invoked. -/
def slashRoundGo (atts : List Att8) (winning : VHash) :
    BState → List String → List Node8 → BState × List String
  | st, acc, [] => (st, acc)
  | st, acc, n :: rest =>
    match atts.find? (fun a => a.node_address = n.address) with
    | none => slashRoundGo atts winning (slashNeural st n.address) (acc ++ [n.address]) rest
    | some a =>
      if a.proof_hash = winning then slashRoundGo atts winning st acc rest
      else slashRoundGo atts winning (slashNeural st n.address) (acc ++ [n.address]) rest

/-- First node in a list carrying a given address (`next(n for n in
neural_nodes if n.address == address)`). -/
def updateFirst (addr : String) (f : Node8 → Node8) : List Node8 → List Node8
  | [] => []
  | n :: rest => if n.address = addr then f n :: rest else n :: updateFirst addr f rest

/-- Settlement of one transaction inside `update_balances_and_rewards`:
`balances[tx.sender] -= tx.amount` (a direct index — `KeyError`, i.e.
`none`, when the sender has no balance entry), then credit the recipient
through `balances.get(recipient, 0)`. -/
def settleTx8 (bal : List (String × ℚ)) (t : Tx8) : Option (List (String × ℚ)) :=
  if bmem bal t.sender then
    let bal' := bset bal t.sender (bget bal t.sender - t.amount)
    some (bset bal' t.recipient (bget bal' t.recipient + t.amount))
  else
    none

/-- Settlement loop of `update_balances_and_rewards`. -/
def settleAll8 (bal : List (String × ℚ)) : List Tx8 → Option (List (String × ℚ))
  | [] => some bal
  | t :: rest => match settleTx8 bal t with
    | none => none
    | some bal' => settleAll8 bal' rest

/-- Reward loop over the contributing (winning) attesters: credit each
address with `reward_per_node` and bump the first matching neural node's
reputation by 0.02 clamped at 1. -/
def rewardContributors (reward_per_node : ℚ) :
    BState → List String → BState
  | st, [] => st
  | st, addr :: rest =>
    let st' : BState :=
      { st with balances := bset st.balances addr (bget st.balances addr + reward_per_node),
                neural_nodes := updateFirst addr
                  (fun n => { n with reputation := min 1 (n.reputation + 1/50) }) st.neural_nodes }
    rewardContributors reward_per_node st' rest

/-- `update_balances_and_rewards` (lines 279–295): settle every transaction,
credit the proposer with 20% of the mining reward and bump its reputation by
0.05 clamped at 1, then — when there are contributing nodes — split the
remaining 80% evenly among them with a 0.02 reputation bump each. -/
def update_balances_and_rewards (st : BState) (proposer_address : String)
    (contributing_nodes : List String) (transactions : List Tx8) : Option BState :=
  match settleAll8 st.balances transactions with
  | none => none
  | some bal =>
    let proposer_reward := mining_reward * (1/5)
    let st1 : BState :=
      { st with balances := bset bal proposer_address (bget bal proposer_address + proposer_reward),
                validator_nodes := updateFirst proposer_address
                  (fun n => { n with reputation := min 1 (n.reputation + 1/20) }) st.validator_nodes }
    if contributing_nodes.isEmpty then some st1
    else
      let reward_per_node := mining_reward * (4/5) / contributing_nodes.length
      some (rewardContributors reward_per_node st1 contributing_nodes)

/-- Outcome of one `process_block_creation_cycle` call. -/
inductive Outcome where
  | noPending
  | proposerSlashed
  | noParticipants
  | consensusFailed
  | committed
deriving DecidableEq, Repr

/-- `Blockchain.process_block_creation_cycle` (lines 214–269).  Returns the
new state, the outcome, and the addresses passed to `slash_node`, in call
order; `none` models the uncaught exceptions (validator index out of range,
empty chain, `KeyError` during settlement) that this state-free model cannot
reach from the simulator's own initialisation. -/
def process_block_creation_cycle (st : BState) (now : ℚ) :
    Option (BState × Outcome × List String) :=
  if st.pending_transactions = [] then some (st, .noPending, [])
  else
    match st.validator_nodes.get? st.current_proposer_index with
    | none => none
    | some proposer =>
      let st1 : BState :=
        { st with current_proposer_index :=
            (st.current_proposer_index + 1) % st.validator_nodes.length }
      if is_compliant st1.stencil proposer = false ∨ proposer.reputation < reputation_threshold then
        some (slashValidator st1 proposer.address, .proposerSlashed, [proposer.address])
      else
        let transactions_for_block := st1.pending_transactions
        let st2 : BState := { st1 with pending_transactions := [] }
        let rna := rnaTemplateHash proposer.address transactions_for_block now
        let ps := participating st2.stencil st2.neural_nodes
        if ps = [] then
          some ({ st2 with pending_transactions := st2.pending_transactions ++ transactions_for_block },
                .noParticipants, [])
        else
          match st2.chain.getLast? with
          | none => none
          | some last =>
            let core := VHash.cip rna (anchorsHash last)
            let atts := ps.map (fun n => attest n core)
            let threshold := ps.length * 2 / 3 + 1
            let w := winner (atts.map Att8.proof_hash)
            let slashed := slashRoundGo atts w.1 st2 [] ps
            let st3 := slashed.1
            if w.1 ≠ core ∨ w.2 < threshold then
              some ({ st3 with pending_transactions := st3.pending_transactions ++ transactions_for_block },
                    .consensusFailed, slashed.2)
            else
              let winAtts := atts.filter (fun a => a.proof_hash = w.1)
              let nb : Block8 :=
                { block_number := st3.chain.length, timestamp := now,
                  transactions := transactions_for_block, previous_hash := last.block_hash,
                  rna_template_hash := rna,
                  winning_cip_proof := some (rna, anchorsHash last, core),
                  attestations := winAtts, block_hash := none }
              let nb := { nb with block_hash := some nb.calculate_hash }
              let st4 : BState := { st3 with chain := st3.chain ++ [nb] }
              match update_balances_and_rewards st4 proposer.address
                      (winAtts.map Att8.node_address) transactions_for_block with
              | none => none
              | some st5 => some (st5, .committed, slashed.2)

end V8

/-! ## `src/achive/simulator_claude.py` — `GenomeFragment` / `DistributedMatrix` -/

namespace Claude

/-- Deterministic stand-in for one byte of `hashlib.sha256(seed).digest()`:
the claims under study never depend on the actual SHA-256 values, only on
the mask being a fixed deterministic function of the seed, so any concrete
keyed byte function models it. -/
def sha256Byte (seed : String) (j : Nat) : Nat :=
  (seed.data.foldl (fun a c => (a * 31 + c.toNat) % 251) 7 + 17 * j) % 256

/-- `hashlib.sha256(pattern_seed).digest()[:len(data)]`: the digest has 32
bytes, so the pattern length is `min len 32` (for longer fragments the
Python `zip` silently truncates the redundant data). -/
def maskBytes (seed : String) (len : Nat) : List Nat :=
  (List.range (min len 32)).map (sha256Byte seed)

/-- Structural stand-in for the `hashlib.sha256(data).hexdigest()` checksum
stored on a fragment. -/
def sha256Hex (data : List Nat) : List Nat := data

/-- `GenomeFragment`: fragment id, payload bytes, redundancy factor and the
stored checksum (`quadrit_sequence` and `creation_time` are derived /
informational attributes the modelled operations never read). -/
structure GenomeFragment where
  fragment_id : String
  data : List Nat
  redundancy_level : Nat
  checksum : List Nat
deriving DecidableEq, Repr

/-- `GenomeFragment.__init__`. -/
def mkFragment (fragment_id : String) (data : List Nat) (redundancy_level : Nat) :
    GenomeFragment :=
  { fragment_id := fragment_id, data := data, redundancy_level := redundancy_level,
    checksum := sha256Hex data }

/-- `GenomeFragment.generate_redundancy_fragments`: for `i <
redundancy_level`, XOR the payload with the deterministic mask seeded by
`f"{fragment_id}_{i}"` and wrap it as fragment `f"{fragment_id}_r{i}"` with
redundancy level 0. -/
def generate_redundancy_fragments (f : GenomeFragment) : List GenomeFragment :=
  (List.range f.redundancy_level).map (fun i =>
    mkFragment (f.fragment_id ++ "_r" ++ toString i)
      (List.zipWith Nat.xor f.data (maskBytes (f.fragment_id ++ "_" ++ toString i) f.data.length))
      0)

/-- `DistributedMatrix` state: the two insertion-ordered dicts
`node_fragments` (node address → stored fragments) and `fragment_locations`
(fragment id → node addresses), plus `regeneration_count`. -/
structure DMatrix where
  node_fragments : List (String × List GenomeFragment)
  fragment_locations : List (String × List String)
  regeneration_count : Nat
deriving DecidableEq, Repr

/-- Read a `defaultdict(list)` entry (the empty default; key
materialisation on read has no observable effect on the modelled flows). -/
def dget {α : Type} : List (String × List α) → String → List α
  | [], _ => []
  | p :: rest, k => if p.1 = k then p.2 else dget rest k

/-- `k in d` on a dict. -/
def dmem {α : Type} : List (String × List α) → String → Bool
  | [], _ => false
  | p :: rest, k => p.1 = k || dmem rest k

/-- `d[k].append(x)` on a `defaultdict(list)`: append to the existing entry,
or create the key with a one-element list. -/
def dapp {α : Type} : List (String × List α) → String → α → List (String × List α)
  | [], k, x => [(k, [x])]
  | p :: rest, k, x => if p.1 = k then (p.1, p.2 ++ [x]) :: rest else p :: dapp rest k x

/-- `d[k].remove(x)`: drop the first occurrence of `x` from the entry list
(every call site removes an element known to be present). -/
def drem {α : Type} [DecidableEq α] : List (String × List α) → String → α → List (String × List α)
  | [], _, _ => []
  | p :: rest, k, x =>
      if p.1 = k then (p.1, removeFirst p.2 x) :: rest else p :: drem rest k x
where
  removeFirst : List α → α → List α
    | [], _ => []
    | y :: ys, x => if y = x then ys else y :: removeFirst ys x

/-- `del d[k]` (order of the remaining keys preserved). -/
def ddel {α : Type} : List (String × List α) → String → List (String × List α)
  | [], _ => []
  | p :: rest, k => if p.1 = k then rest else p :: ddel rest k

/-- The empty matrix (`DistributedMatrix.__init__`; `total_nodes` and
`min_fragments_per_node` are stored but never read by the modelled
operations). -/
def emptyDM : DMatrix := { node_fragments := [], fragment_locations := [], regeneration_count := 0 }

/-- `DistributedMatrix.distribute_fragment`: store the fragment at
`target_nodes[0]` (an `IndexError`, i.e. `none`, on an empty target list —
there is no minimum-node check) and record its location; generate the
redundancy fragments and store the i-th at `target_nodes[i+1]` when that
index exists, recording each location. -/
def distribute_fragment (m : DMatrix) (fragment : GenomeFragment)
    (target_nodes : List String) : Option DMatrix :=
  match target_nodes with
  | [] => none
  | primary :: rest =>
    let m1 : DMatrix :=
      { m with node_fragments := dapp m.node_fragments primary fragment,
               fragment_locations := dapp m.fragment_locations fragment.fragment_id primary }
    let reds := generate_redundancy_fragments fragment
    some ((reds.zip rest).foldl (fun acc p =>
      { acc with node_fragments := dapp acc.node_fragments p.2 p.1,
                 fragment_locations := dapp acc.fragment_locations p.1.fragment_id p.2 }) m1)

/-- Events reported (logged) by `regenerate_lost_fragments`: a fragment
marked as regenerated and re-located at a node, a fragment "regenerated" with
no surviving node to host it, or the irrecoverable-loss error log. -/
inductive RegenEvent where
  | marked : String → String → RegenEvent
  | markedNowhere : String → RegenEvent
  | irrecoverable : String → RegenEvent
deriving DecidableEq, Repr

/-- Characters before the first occurrence of the separator `"_r"`. -/
def baseIdAux : List Char → List Char
  | [] => []
  | '_' :: 'r' :: _ => []
  | c :: rest => c :: baseIdAux rest

/-- `fragment_id.split('_r')[0]`. -/
def baseId (fragment_id : String) : String := ⟨baseIdAux fragment_id.data⟩

/-- `s.startswith(pre)` on character lists. -/
def startsWithChars : List Char → List Char → Bool
  | _, [] => true
  | [], _ :: _ => false
  | c :: cs, p :: ps => c = p && startsWithChars cs ps

/-- `s.startswith(pre)`. -/
def strStartsWith (s pre : String) : Bool := startsWithChars s.data pre.data

/-- `DistributedMatrix.regenerate_lost_fragments`: for every lost fragment id
that has no surviving location, look for any fragment id starting with
`f"{base_id}_r"` that still has a location; if one exists, increment
`regeneration_count` and append the first surviving custodian (first key of
`node_fragments`) to the lost fragment's location list — the payload is not
reconstructed (the code comment says "For simulation, we just mark it as
regenerated") — otherwise log the insufficient-redundancy error. -/
def regenerate_lost_fragments (m : DMatrix) (lost : List String) : DMatrix × List RegenEvent :=
  lost.foldl (fun acc fragment_id =>
    let mm := acc.1
    if dget mm.fragment_locations fragment_id ≠ [] then acc
    else
      let base := baseId fragment_id
      let available := (mm.fragment_locations.filter
        (fun p => strStartsWith p.1 (base ++ "_r") && p.2 ≠ [])).map (fun p => p.1)
      if available.length ≥ 1 then
        let mm1 := { mm with regeneration_count := mm.regeneration_count + 1 }
        match mm1.node_fragments.map (fun p => p.1) with
        | [] => ({ mm1 with fragment_locations := mm1.fragment_locations },
                 acc.2 ++ [.markedNowhere fragment_id])
        | node :: _ =>
          ({ mm1 with fragment_locations := dapp mm1.fragment_locations fragment_id node },
           acc.2 ++ [.marked fragment_id node])
      else
        (mm, acc.2 ++ [.irrecoverable fragment_id])) (m, [])

/-- `DistributedMatrix.simulate_node_failure`: for each failed node that
holds fragments, record its fragments as lost, remove the node from each of
their location lists, and delete the node's fragment store; then attempt
regeneration of the collected lost ids. -/
def simulate_node_failure (m : DMatrix) (failed_nodes : List String) : DMatrix × List RegenEvent :=
  let removed := failed_nodes.foldl (fun (acc : DMatrix × List String) node =>
    if dmem acc.1.node_fragments node then
      let frs := dget acc.1.node_fragments node
      let m' := frs.foldl (fun mm f =>
        { mm with fragment_locations := drem mm.fragment_locations f.fragment_id node }) acc.1
      ({ m' with node_fragments := ddel m'.node_fragments node },
       acc.2 ++ frs.map (fun f => f.fragment_id))
    else acc) (m, [])
  regenerate_lost_fragments removed.1 removed.2

end Claude

/-! ## Concrete scenarios used by witnesses and counterexamples -/

namespace Core

/-- Fresh chain with Alice funded with 100, as in the module's own test
script pattern (`valorium_chain.balances[...] = ...`). -/
def c2st0 : BCState := { initBC 2 0 with balances := [("Alice", 100)] }

/-- First spend: Alice sends her entire balance to Bob. -/
def c2tx1 : Transaction :=
  { sender := "Alice", recipient := "Bob", amount := 100, quadrit_data_payload := [], timestamp := 1 }

/-- Second spend: Alice sends her entire balance again, to Charlie. -/
def c2tx2 : Transaction :=
  { sender := "Alice", recipient := "Charlie", amount := 100, quadrit_data_payload := [],
    timestamp := 2 }

/-- State after the first accepted transaction. -/
def c2stA : BCState := { c2st0 with pending_transactions := [c2tx1] }

/-- State after the second accepted transaction. -/
def c2stB : BCState := { c2st0 with pending_transactions := [c2tx1, c2tx2] }

/-- A mined single-block extension of the fresh chain. -/
def c5base : BCState := (mine_pending_transactions (initBC 2 0) "Miner" 1).getD (initBC 2 0)

/-- The genesis block with its `timestamp` field mutated (stored `block_hash`
left as it was, exactly what in-place tampering does). -/
def c5tamperedGenesis : Block := { create_genesis_block 0 with timestamp := 99 }

/-- `c5base` with the genesis block tampered in place. -/
def c5tampered : BCState :=
  { c5base with chain :=
      match c5base.chain with
      | g :: rest => { g with timestamp := 99 } :: rest
      | [] => [] }

end Core

namespace Claude

/-- A fragment with redundancy factor `k = 3`. -/
def f6 : GenomeFragment := mkFragment "frag" [1, 2, 3] 3

/-- `f6` distributed across 4 custodian nodes. -/
def m6 : DMatrix := (distribute_fragment emptyDM f6 ["n0", "n1", "n2", "n3"]).getD emptyDM

/-- Failure of 2 of the 4 custodians, including the primary. -/
def m6f : DMatrix × List RegenEvent := simulate_node_failure m6 ["n0", "n1"]

/-- Failure of all 4 custodians. -/
def m6all : DMatrix × List RegenEvent := simulate_node_failure m6 ["n0", "n1", "n2", "n3"]

end Claude

namespace V8

/-- Stencil with `v1.0` registered under its canonical software name. -/
def wStencil : List (String × VHash) := [("v1.0", .str "ValoriumX Node Software v1.0")]

/-- A compliant validator. -/
def wVal : Node8 := mkNode "Validator-01" "v1.0" true

/-- Four compliant honest attesters. -/
def wN1 : Node8 := mkNode "NeuralNode-01" "v1.0" true

def wN2 : Node8 := mkNode "NeuralNode-02" "v1.0" true

def wN3 : Node8 := mkNode "NeuralNode-03" "v1.0" true

def wN4 : Node8 := mkNode "NeuralNode-04" "v1.0" true

/-- A compliant malicious attester. -/
def wBad : Node8 := mkNode "NeuralNode-Bad" "v1.0" false

/-- One funded pending transaction. -/
def wTx : Tx8 := { sender := "Alice", recipient := "Bob", amount := 10, timestamp := 5 }

/-- A round state with 5 participating attesters (4 honest, 1 malicious):
the threshold is `floor(5*2/3)+1 = 4`, the honest tally is 4, so the round
commits while the dissenter is slashed. -/
def W1 : BState :=
  { validator_nodes := [wVal], neural_nodes := [wN1, wN2, wN3, wN4, wBad], stencil := wStencil,
    chain := [create_genesis_block 0], pending_transactions := [wTx],
    balances := [("Alice", 100)], current_proposer_index := 0 }

/-- The result of running one cycle on `W1`. -/
def W1res : BState × Outcome × List String :=
  (process_block_creation_cycle W1 7).getD (W1, .noPending, [])

/-- The locally expected CIP proof hash of the `W1` round. -/
def W1core : VHash :=
  .cip (rnaTemplateHash wVal.address W1.pending_transactions 7) (anchorsHash (create_genesis_block 0))

/-- The winning hash and tally of the `W1` round. -/
def W1w : VHash × Nat :=
  winner (((participating W1.stencil W1.neural_nodes).map (fun n => attest n W1core)).map
    Att8.proof_hash)

/-- `W1` with a non-compliant proposer (empty stencil): the cycle aborts by
slashing the proposer, which credits the treasury inside `balances`. -/
def W4 : BState := { W1 with stencil := [] }

/-- The result of running one cycle on `W4`. -/
def W4res : BState × Outcome × List String :=
  (process_block_creation_cycle W4 7).getD (W4, .noPending, [])

/-- A round state with 3 participating attesters, 2 of them malicious: the
fake hash wins the plurality with tally 2 below both the expected hash and
the threshold `floor(3*2/3)+1 = 3`, so the round aborts. -/
def W5 : BState :=
  { W1 with neural_nodes := [wN1, { wN2 with is_honest := false }, { wN3 with is_honest := false }] }

/-- The result of running one cycle on `W5`. -/
def W5res : BState × Outcome × List String :=
  (process_block_creation_cycle W5 7).getD (W5, .noPending, [])

/-- The locally expected CIP proof hash of the `W5` round. -/
def W5core : VHash :=
  .cip (rnaTemplateHash wVal.address W5.pending_transactions 7) (anchorsHash (create_genesis_block 0))

/-- The winning hash and tally of the `W5` round. -/
def W5w : VHash × Nat :=
  winner (((participating W5.stencil W5.neural_nodes).map (fun n => attest n W5core)).map
    Att8.proof_hash)

end V8

/-! ## Theorems -/

/-- `Option` helper: a `some`-valued option equals `some` of its `getD`. -/
theorem opt_eq_some_getD {α : Type} (o : Option α) (d : α) (h : o.isSome = true) :
    o = some (o.getD d) := by
  cases o with
  | none => exact absurd h (by simp)
  | some a => rfl

/-! ### Quadrit encoding (claims C7, C10) -/

namespace Quadrits

theorem toBits_lt (q : Quadrit) : q.toBits < 4 := by
  cases q <;> simp [Quadrit.toBits]

theorem toBits_bitsToQuadrit (n : Nat) (h : n < 4) : (bitsToQuadrit n).toBits = n := by
  interval_cases n <;> rfl

theorem decode_encodeByte (b : Nat) (hb : b < 256) (rest : List Quadrits.Quadrit) :
    decode_from_quadrits (encodeByte b ++ rest) =
      (decode_from_quadrits rest).map (fun bs => b :: bs) := by
  show (decode_from_quadrits rest).map _ = _
  have h1 : b / 64 % 4 < 4 := Nat.mod_lt _ (by omega)
  have h2 : b / 16 % 4 < 4 := Nat.mod_lt _ (by omega)
  have h3 : b / 4 % 4 < 4 := Nat.mod_lt _ (by omega)
  have h4 : b % 4 < 4 := Nat.mod_lt _ (by omega)
  rw [toBits_bitsToQuadrit _ h1, toBits_bitsToQuadrit _ h2, toBits_bitsToQuadrit _ h3,
    toBits_bitsToQuadrit _ h4]
  have hsum : b / 64 % 4 * 64 + b / 16 % 4 * 16 + b / 4 % 4 * 4 + b % 4 = b := by omega
  rw [hsum]

theorem decode_encode (x : List Nat) (h : ∀ b ∈ x, b < 256) :
    decode_from_quadrits (encode_to_quadrits x) = some x := by
  induction x with
  | nil => rfl
  | cons b xs ih =>
    have hb : b < 256 := h b (List.mem_cons_self _ _)
    have hxs : ∀ c ∈ xs, c < 256 := fun c hc => h c (List.mem_cons_of_mem _ hc)
    have ih' : decode_from_quadrits ((xs.map encodeByte).flatten) = some xs := ih hxs
    show decode_from_quadrits (encodeByte b ++ (xs.map encodeByte).flatten) = _
    rw [decode_encodeByte b hb, ih']
    rfl

theorem length_encode (x : List Nat) : (encode_to_quadrits x).length = 4 * x.length := by
  induction x with
  | nil => rfl
  | cons b xs ih =>
    have ih' : ((xs.map encodeByte).flatten).length = 4 * xs.length := ih
    show (encodeByte b ++ (xs.map encodeByte).flatten).length = _
    simp only [List.length_append, List.length_cons, List.length_nil, ih', encodeByte]
    ring

theorem decode_none_iff : ∀ qs : List Quadrit, decode_from_quadrits qs = none ↔ qs.length % 4 ≠ 0
  | [] => by
      refine ⟨fun hc => ?_, fun hc => absurd rfl hc⟩
      exact absurd hc (by simp [decode_from_quadrits])
  | [q0] => ⟨fun _ => by simp, fun _ => rfl⟩
  | [q0, q1] => ⟨fun _ => by simp, fun _ => rfl⟩
  | [q0, q1, q2] => ⟨fun _ => by simp, fun _ => rfl⟩
  | q0 :: q1 :: q2 :: q3 :: rest => by
      have ih := decode_none_iff rest
      show (decode_from_quadrits rest).map _ = none ↔ _
      rw [Option.map_eq_none', ih]
      simp only [List.length_cons]
      omega

theorem decode_length : ∀ (qs : List Quadrit) (bs : List Nat),
    decode_from_quadrits qs = some bs → bs.length = qs.length / 4
  | [], bs, h => by
      simp only [decode_from_quadrits, Option.some_inj] at h
      subst h
      rfl
  | [q0], bs, h => by exact absurd h (by simp [decode_from_quadrits])
  | [q0, q1], bs, h => by exact absurd h (by simp [decode_from_quadrits])
  | [q0, q1, q2], bs, h => by exact absurd h (by simp [decode_from_quadrits])
  | q0 :: q1 :: q2 :: q3 :: rest, bs, h => by
      change (decode_from_quadrits rest).map _ = some bs at h
      rw [Option.map_eq_some'] at h
      obtain ⟨cs, hcs, rfl⟩ := h
      have ih := decode_length rest cs hcs
      simp only [List.length_cons, ih]
      omega

end Quadrits

namespace Simulator

open Quadrits

theorem groups_encodeByte (b : Nat) (hb : b < 256) (rest : List Quadrit) :
    quadritGroupsToBytes (encodeByte b ++ rest) = b :: quadritGroupsToBytes rest := by
  show (_ :: quadritGroupsToBytes rest) = _
  have h1 : b / 64 % 4 < 4 := Nat.mod_lt _ (by omega)
  have h2 : b / 16 % 4 < 4 := Nat.mod_lt _ (by omega)
  have h3 : b / 4 % 4 < 4 := Nat.mod_lt _ (by omega)
  have h4 : b % 4 < 4 := Nat.mod_lt _ (by omega)
  rw [toBits_bitsToQuadrit _ h1, toBits_bitsToQuadrit _ h2, toBits_bitsToQuadrit _ h3,
    toBits_bitsToQuadrit _ h4]
  have hsum : b / 64 % 4 * 64 + b / 16 % 4 * 16 + b / 4 % 4 * 4 + b % 4 = b := by omega
  rw [hsum]

theorem groups_encode (x : List Nat) (h : ∀ b ∈ x, b < 256) :
    quadritGroupsToBytes ((x.map encodeByte).flatten) = x := by
  induction x with
  | nil => rfl
  | cons b xs ih =>
    have hb : b < 256 := h b (List.mem_cons_self _ _)
    have hxs : ∀ c ∈ xs, c < 256 := fun c hc => h c (List.mem_cons_of_mem _ hc)
    show quadritGroupsToBytes (encodeByte b ++ (xs.map encodeByte).flatten) = _
    rw [groups_encodeByte b hb, ih hxs]

theorem length_bytes_to_quadrits (x : List Nat) :
    (bytes_to_quadrits x).length = 4 * x.length :=
  Quadrits.length_encode x

theorem padQuadrits_of_mul (qs : List Quadrit) (h : qs.length % 4 = 0) :
    padQuadrits qs = qs := by
  unfold padQuadrits
  rw [if_pos h]

end Simulator

/-- Claim C7: for every byte string `x` (each entry `< 256`), including the
empty one, decoding the quadrit encoding of `x` returns exactly `x` — both
for `quadrits.py` (`decode_from_quadrits (encode_to_quadrits x) = some x`,
i.e. no `ValueError`) and for the `QuadritEncoder` bytes round-trip of
`simulator.py`.  The `A`-padding step of `quadrits_to_bytes` never fires on
encoder output (whose length is always a multiple of 4), so the fixed padding
behaviour is consistent with the round-trip. -/
theorem quadrit_roundtrip (x : List Nat) (h : ∀ b ∈ x, b < 256) :
    Quadrits.decode_from_quadrits (Quadrits.encode_to_quadrits x) = some x ∧
    Simulator.quadrits_to_bytes (Simulator.bytes_to_quadrits x) = x := by
  refine ⟨Quadrits.decode_encode x h, ?_⟩
  unfold Simulator.quadrits_to_bytes
  rw [Simulator.padQuadrits_of_mul _ (by rw [Simulator.length_bytes_to_quadrits]; omega)]
  exact Simulator.groups_encode x h

/-- Witness for C7 at a concrete byte string (and, via the theorem's
universally quantified statement, the empty string as well). -/
theorem quadrit_roundtrip_witness :
    Quadrits.decode_from_quadrits (Quadrits.encode_to_quadrits [0, 255, 77, 3]) =
        some [0, 255, 77, 3] ∧
    Simulator.quadrits_to_bytes (Simulator.bytes_to_quadrits [0, 255, 77, 3]) = [0, 255, 77, 3] :=
  quadrit_roundtrip [0, 255, 77, 3] (by decide)

/-- Claim C10: `decode_from_quadrits` raises `ValueError` (returns `none`)
iff the input length is not a multiple of 4; on a multiple-of-4 input it
returns exactly `length / 4` bytes; `encode_to_quadrits` always outputs a
multiple-of-4 number of quadrits (4 per byte), so decoding an encoder output
never raises. -/
theorem decode_error_characterization (qs : List Quadrits.Quadrit) (x : List Nat) :
    (Quadrits.decode_from_quadrits qs = none ↔ qs.length % 4 ≠ 0) ∧
    (∀ bs, Quadrits.decode_from_quadrits qs = some bs → bs.length = qs.length / 4) ∧
    (Quadrits.encode_to_quadrits x).length % 4 = 0 ∧
    Quadrits.decode_from_quadrits (Quadrits.encode_to_quadrits x) ≠ none := by
  refine ⟨Quadrits.decode_none_iff qs, fun bs hbs => Quadrits.decode_length qs bs hbs, ?_, ?_⟩
  · rw [Quadrits.length_encode]
    omega
  · intro hc
    rw [Quadrits.decode_none_iff, Quadrits.length_encode] at hc
    omega

/-! ### Ledger balances and chain integrity (claims C2, C5) -/

namespace Core

theorem chainValidFrom_iff (l : List Block) : ∀ prev : Block,
    chainValidFrom prev l = true ↔
      ∀ p ∈ (prev :: l).zip l, p.2.block_hash = p.2.calculate_hash ∧
        p.2.previous_hash = p.1.block_hash := by
  induction l with
  | nil => intro prev; simp [chainValidFrom]
  | cons b rest ih =>
    intro prev
    show (validLink prev b && chainValidFrom b rest) = true ↔ _
    rw [Bool.and_eq_true, ih b]
    unfold validLink
    rw [Bool.and_eq_true]
    simp only [List.zip_cons_cons, List.mem_cons, decide_eq_true_eq]
    constructor
    · rintro ⟨⟨h1, h2⟩, h3⟩ p hp
      rcases hp with rfl | hp
      · exact ⟨h1, h2⟩
      · exact h3 p hp
    · intro hall
      exact ⟨⟨(hall _ (Or.inl rfl)).1, (hall _ (Or.inl rfl)).2⟩, fun p hp => hall p (Or.inr hp)⟩

end Core

/-- Claim C5 (amended): `is_chain_valid` returns true iff, for every adjacent
pair of blocks in the chain, the *later* block's stored hash equals its
recomputed hash and its `previous_hash` equals the earlier block's stored
hash.  The genesis block's own stored hash is never compared with its
recomputed hash — the loop starts at index 1 — which is exactly what the
counterexample `genesis_tamper_undetected` exploits. -/
theorem is_chain_valid_iff (st : Core.BCState) :
    Core.is_chain_valid st = true ↔
      ∀ p ∈ st.chain.zip st.chain.tail,
        p.2.block_hash = p.2.calculate_hash ∧ p.2.previous_hash = p.1.block_hash := by
  unfold Core.is_chain_valid
  match h : st.chain with
  | [] => simp
  | b :: rest =>
    rw [Core.chainValidFrom_iff rest b]
    rfl

/-- Counterexample to claim C5 as stated: in a two-block chain built by the
module's own operations, mutating the genesis block's `timestamp` field
leaves `is_chain_valid` returning `true`, even though the mutated genesis
block's stored hash no longer equals its recomputed hash (and the mutation
really changed the chain). -/
theorem genesis_tamper_undetected :
    Core.is_chain_valid Core.c5tampered = true ∧
    Core.c5tamperedGenesis ∈ Core.c5tampered.chain ∧
    Core.c5tamperedGenesis.block_hash ≠ Core.c5tamperedGenesis.calculate_hash ∧
    Core.c5tampered.chain ≠ Core.c5base.chain := by
  refine ⟨by decide, by decide, by decide, by decide⟩

/-- Claim C2 (code bug evaluation): with Alice funded with exactly 100, the
transaction validation accepts *both* 100-unit spends (each is checked only
against the current settled balance, not against earlier pending debits), and
mining then settles Alice to −100 — the committed block drives a debited
sender's balance negative. -/
theorem pending_overspend_goes_negative :
    Core.add_transaction Core.c2st0 Core.c2tx1 = .ok Core.c2stA ∧
    Core.add_transaction Core.c2stA Core.c2tx2 = .ok Core.c2stB ∧
    (Core.mine_pending_transactions Core.c2stB "Miner" 3).map
        (fun s => Core.bget s.balances "Alice") = some (-100) := by
  refine ⟨rfl, rfl, ?_⟩
  norm_num +decide [Core.mine_pending_transactions, Core.c2stB, Core.c2st0, Core.initBC,
    Core.c2tx1, Core.c2tx2, Core.settleAll, Core.settleTx, Core.bget, Core.bset, Core.bmem,
    Core.create_genesis_block, Core.mkBlock, Core.Block.mine_block, List.getLast?]

/-! ### Fragment distribution and regeneration (claims C6, C8) -/

/-- Claim C6 (code bug evaluation): distributing fragment `f6` (payload
`[1,2,3]`, `k = 3`) across 4 custodians and then failing 2 of them (including
the primary) makes `regenerate_lost_fragments` *mark* the lost fragments as
regenerated — it appends the first surviving custodian `"n2"` to their
location lists and bumps `regeneration_count` — but no payload is decoded:
node `"n2"` stores no fragment named `"frag"`, and the original payload
`[1,2,3]` exists nowhere in the store, so nothing was verified against the
stored checksum or re-assigned.  When all 4 custodians fail, regeneration
only logs `irrecoverable` for each fragment (no result is surfaced to the
caller, the state is left marked as before). -/
theorem regeneration_is_mark_only :
    (Claude.distribute_fragment Claude.emptyDM Claude.f6 ["n0", "n1", "n2", "n3"]).isSome = true ∧
    Claude.dget Claude.m6f.1.fragment_locations "frag" = ["n2"] ∧
    Claude.m6f.2 = [.marked "frag" "n2", .marked "frag_r0" "n2"] ∧
    Claude.m6f.1.regeneration_count = 2 ∧
    (∀ f ∈ Claude.dget Claude.m6f.1.node_fragments "n2", f.fragment_id ≠ "frag") ∧
    (∀ p ∈ Claude.m6f.1.node_fragments, ∀ f ∈ p.2, f.data ≠ Claude.f6.data) ∧
    Claude.m6all.2 = [.irrecoverable "frag", .irrecoverable "frag_r0",
      .irrecoverable "frag_r1", .irrecoverable "frag_r2"] := by
  refine ⟨by decide, by decide, by decide, by decide, by decide, by decide, by decide⟩

/-- Counterexample to claim C8 as stated: distributing a fragment with a
single-node target list does *not* fail — there is no minimum-node check in
`distribute_fragment` — it stores the primary fragment at that node and
records the location assignment. -/
theorem single_node_distribution_accepted :
    Claude.distribute_fragment Claude.emptyDM Claude.f6 ["n0"] ≠ none ∧
    (Claude.distribute_fragment Claude.emptyDM Claude.f6 ["n0"]).map
        (fun m => Claude.dget m.fragment_locations "frag") = some ["n0"] ∧
    (Claude.distribute_fragment Claude.emptyDM Claude.f6 ["n0"]).map
        (fun m => Claude.dget m.node_fragments "n0") = some [Claude.f6] := by
  refine ⟨by decide, by decide, by decide⟩

/-- Claim C8 (amended): `distribute_fragment` fails (raises `IndexError` on
`target_nodes[0]`, before recording anything) exactly when the target list is
*empty*; with a single target node it succeeds with no redundancy placement —
it records exactly the primary assignment (fragment stored at the node, one
location entry) and no redundancy-fragment assignments. -/
theorem distribute_fragment_characterization (m : Claude.DMatrix) (f : Claude.GenomeFragment)
    (target_nodes : List String) :
    (Claude.distribute_fragment m f target_nodes = none ↔ target_nodes = []) ∧
    (∀ n, Claude.distribute_fragment m f [n] =
      some { m with node_fragments := Claude.dapp m.node_fragments n f,
                    fragment_locations := Claude.dapp m.fragment_locations f.fragment_id n }) := by
  constructor
  · cases target_nodes with
    | nil => simp [Claude.distribute_fragment]
    | cons p rest => simp [Claude.distribute_fragment]
  · intro n
    simp [Claude.distribute_fragment, List.zip_nil_right]

/-! ### Slashing (claim C3) -/

/-- Counterexample to claim C3 as stated: slashing a node whose stake is
already 0 (positive penalty 100) leaves the reputation at 1 — the whole
update is guarded by `if slash_amount > 0`, so the reputation is *not*
reduced by the fixed decrement `max 0 (1 - 0.5) = 0.5` the claim requires. -/
theorem slash_zero_stake_counterexample :
    V8.slash_node 0 1 [] 100 = (0, 1, []) ∧
    (V8.slash_node 0 1 [] 100).2.1 ≠ max 0 (1 - 1/2) := by
  constructor
  · rfl
  · norm_num [V8.slash_node]

/-- Claim C3 (amended): for a positive penalty, `slash_node` on a node with
*positive* stake atomically (in the same guarded block) reduces the stake by
`min(stake, penalty)`, credits exactly that amount to the treasury account,
and reduces the reputation by the fixed decrement 0.5 clamped at 0; on a node
with *zero* stake it is a complete no-op — stake, reputation and treasury are
all left unchanged (in particular the reputation decrement is skipped).  In
both cases stake and reputation are updated together or not at all. -/
theorem slash_node_characterization (stake reputation penalty : ℚ) (bal : List (String × ℚ))
    (hpen : 0 < penalty) (hstake : 0 ≤ stake) :
    (0 < stake →
      V8.slash_node stake reputation bal penalty =
        (stake - min stake penalty, max 0 (reputation - 1/2),
         V8.bset bal V8.treasury_address (V8.bget bal V8.treasury_address + min stake penalty))) ∧
    (stake = 0 → V8.slash_node stake reputation bal penalty = (stake, reputation, bal)) := by
  constructor
  · intro hpos
    unfold V8.slash_node
    rw [if_pos (lt_min hpos hpen)]
  · intro hz
    subst hz
    unfold V8.slash_node
    rw [if_neg (by simp [min_def, hpen.le])]

/-- Witness for C3 (amended) at stake 1000, reputation 1, penalty 100. -/
theorem slash_node_characterization_witness :
    (0 < (1000 : ℚ) →
      V8.slash_node 1000 1 [] 100 =
        (1000 - min 1000 100, max 0 (1 - 1/2),
         V8.bset [] V8.treasury_address (V8.bget [] V8.treasury_address + min 1000 100))) ∧
    ((1000 : ℚ) = 0 → V8.slash_node 1000 1 [] 100 = (1000, 1, [])) :=
  slash_node_characterization 1000 1 100 [] (by norm_num) (by norm_num)

/-! ### Consensus cycle lemmas (claims C1, C4, C9) -/

namespace V8

theorem bget_bset_ne (m : List (String × ℚ)) (k k' : String) (v : ℚ) (h : k ≠ k') :
    bget (bset m k' v) k = bget m k := by
  induction m with
  | nil => simp [bset, bget, Ne.symm h]
  | cons p rest ih =>
    by_cases hp : p.1 = k'
    · simp [bset, bget, hp, h, Ne.symm h]
    · simp only [bset, if_neg hp, bget]
      by_cases hk : p.1 = k
      · simp [hk]
      · simp [hk, ih]

theorem slash_node_bget_ne (stake reputation penalty : ℚ) (bal : List (String × ℚ))
    (k : String) (hk : k ≠ treasury_address) :
    bget (slash_node stake reputation bal penalty).2.2 k = bget bal k := by
  unfold slash_node
  by_cases h : 0 < min stake penalty
  · rw [if_pos h]
    exact bget_bset_ne _ _ _ _ hk
  · rw [if_neg h]

theorem slashInList_bget_ne (addr : String) (k : String) (hk : k ≠ treasury_address) :
    ∀ (l : List Node8) (bal : List (String × ℚ)) (l' : List Node8) (bal' : List (String × ℚ)),
    slashInList bal addr l = some (l', bal') → bget bal' k = bget bal k := by
  intro l
  induction l with
  | nil => intro bal l' bal' h; exact absurd h (by simp [slashInList])
  | cons n rest ih =>
    intro bal l' bal' h
    unfold slashInList at h
    by_cases hn : n.address = addr
    · rw [if_pos hn] at h
      injection h with h
      injection h with h1 h2
      rw [← h2]
      exact slash_node_bget_ne _ _ _ _ _ hk
    · rw [if_neg hn] at h
      cases hrec : slashInList bal addr rest with
      | none => rw [hrec] at h; exact absurd h (by simp)
      | some p =>
        rw [hrec] at h
        injection h with h
        injection h with h1 h2
        rw [← h2]
        exact ih bal p.1 p.2 (by rw [hrec])

theorem slashValidator_preserves (st : BState) (addr : String) :
    (slashValidator st addr).chain = st.chain ∧
    (slashValidator st addr).pending_transactions = st.pending_transactions ∧
    (slashValidator st addr).neural_nodes = st.neural_nodes ∧
    (slashValidator st addr).stencil = st.stencil ∧
    (slashValidator st addr).current_proposer_index = st.current_proposer_index ∧
    ∀ k, k ≠ treasury_address →
      bget (slashValidator st addr).balances k = bget st.balances k := by
  unfold slashValidator
  cases h : slashInList st.balances addr st.validator_nodes with
  | none => simp
  | some p =>
    refine ⟨rfl, rfl, rfl, rfl, rfl, fun k hk => ?_⟩
    exact slashInList_bget_ne addr k hk _ _ _ _ h

theorem slashNeural_preserves (st : BState) (addr : String) :
    (slashNeural st addr).chain = st.chain ∧
    (slashNeural st addr).pending_transactions = st.pending_transactions ∧
    (slashNeural st addr).validator_nodes = st.validator_nodes ∧
    (slashNeural st addr).stencil = st.stencil ∧
    (slashNeural st addr).current_proposer_index = st.current_proposer_index ∧
    ∀ k, k ≠ treasury_address →
      bget (slashNeural st addr).balances k = bget st.balances k := by
  unfold slashNeural
  cases h : slashInList st.balances addr st.neural_nodes with
  | none => simp
  | some p =>
    refine ⟨rfl, rfl, rfl, rfl, rfl, fun k hk => ?_⟩
    exact slashInList_bget_ne addr k hk _ _ _ _ h

theorem slashRoundGo_preserves (atts : List Att8) (winning : VHash) :
    ∀ (ps : List Node8) (st : BState) (acc : List String),
    (slashRoundGo atts winning st acc ps).1.chain = st.chain ∧
    (slashRoundGo atts winning st acc ps).1.pending_transactions = st.pending_transactions ∧
    ∀ k, k ≠ treasury_address →
      bget (slashRoundGo atts winning st acc ps).1.balances k = bget st.balances k := by
  intro ps
  induction ps with
  | nil => intro st acc; exact ⟨rfl, rfl, fun _ _ => rfl⟩
  | cons n rest ih =>
    intro st acc
    have hslash := slashNeural_preserves st n.address
    cases hfind : atts.find? (fun a => a.node_address = n.address) with
    | none =>
      simp only [slashRoundGo, hfind]
      obtain ⟨h1, h2, h3⟩ := ih (slashNeural st n.address) (acc ++ [n.address])
      exact ⟨h1.trans hslash.1, h2.trans hslash.2.1,
        fun k hk => (h3 k hk).trans (hslash.2.2.2.2.2 k hk)⟩
    | some a =>
      simp only [slashRoundGo, hfind]
      by_cases ha : a.proof_hash = winning
      · rw [if_pos ha]
        exact ih st acc
      · rw [if_neg ha]
        obtain ⟨h1, h2, h3⟩ := ih (slashNeural st n.address) (acc ++ [n.address])
        exact ⟨h1.trans hslash.1, h2.trans hslash.2.1,
          fun k hk => (h3 k hk).trans (hslash.2.2.2.2.2 k hk)⟩

theorem slashRoundGo_acc_mono (atts : List Att8) (winning : VHash) :
    ∀ (ps : List Node8) (st : BState) (acc : List String) (x : String),
    x ∈ acc → x ∈ (slashRoundGo atts winning st acc ps).2 := by
  intro ps
  induction ps with
  | nil => intro st acc x hx; exact hx
  | cons n rest ih =>
    intro st acc x hx
    cases hfind : atts.find? (fun a => a.node_address = n.address) with
    | none =>
      simp only [slashRoundGo, hfind]
      exact ih _ _ x (List.mem_append_left _ hx)
    | some a =>
      simp only [slashRoundGo, hfind]
      by_cases ha : a.proof_hash = winning
      · rw [if_pos ha]; exact ih _ _ x hx
      · rw [if_neg ha]; exact ih _ _ x (List.mem_append_left _ hx)

theorem slashRoundGo_mem (atts : List Att8) (winning : VHash) :
    ∀ (ps : List Node8) (st : BState) (acc : List String) (n : Node8),
    n ∈ ps →
    (∀ a, atts.find? (fun a => a.node_address = n.address) = some a → a.proof_hash ≠ winning) →
    n.address ∈ (slashRoundGo atts winning st acc ps).2 := by
  intro ps
  induction ps with
  | nil => intro st acc n hn; exact absurd hn (by simp)
  | cons m rest ih =>
    intro st acc n hn hcond
    rcases List.mem_cons.mp hn with rfl | hn'
    · cases hfind : atts.find? (fun a => a.node_address = n.address) with
      | none =>
        simp only [slashRoundGo, hfind]
        exact slashRoundGo_acc_mono atts winning rest _ _ _
          (List.mem_append_right _ (List.mem_singleton_self _))
      | some a =>
        simp only [slashRoundGo, hfind]
        rw [if_neg (hcond a hfind)]
        exact slashRoundGo_acc_mono atts winning rest _ _ _
          (List.mem_append_right _ (List.mem_singleton_self _))
    · cases hfind : atts.find? (fun a => a.node_address = m.address) with
      | none =>
        simp only [slashRoundGo, hfind]
        exact ih _ _ n hn' hcond
      | some a =>
        simp only [slashRoundGo, hfind]
        by_cases ha : a.proof_hash = winning
        · rw [if_pos ha]; exact ih _ _ n hn' hcond
        · rw [if_neg ha]; exact ih _ _ n hn' hcond

theorem find_attest (core : VHash) :
    ∀ (ps : List Node8) (n : Node8),
    (ps.map Node8.address).Nodup → n ∈ ps →
    (ps.map (fun m => attest m core)).find? (fun a => a.node_address = n.address) =
      some (attest n core) := by
  intro ps
  induction ps with
  | nil => intro n _ hn; exact absurd hn (by simp)
  | cons m rest ih =>
    intro n hnd hn
    simp only [List.map_cons, List.nodup_cons] at hnd
    by_cases hm : m.address = n.address
    · have hnm : n = m := by
        rcases List.mem_cons.mp hn with rfl | hn'
        · rfl
        · exact absurd (hm ▸ List.mem_map_of_mem Node8.address hn') hnd.1
      subst hnm
      rw [List.map_cons, List.find?_cons_of_pos _ (by simp [attest])]
    · have hn' : n ∈ rest := by
        rcases List.mem_cons.mp hn with rfl | hn'
        · exact absurd rfl hm
        · exact hn'
      rw [List.map_cons, List.find?_cons_of_neg _ (by simp [attest, hm]), ih n hnd.2 hn']

theorem rewardContributors_preserves (reward : ℚ) :
    ∀ (contributing : List String) (st : BState),
    (rewardContributors reward st contributing).chain = st.chain ∧
    (rewardContributors reward st contributing).pending_transactions = st.pending_transactions := by
  intro contributing
  induction contributing with
  | nil => intro st; exact ⟨rfl, rfl⟩
  | cons addr rest ih =>
    intro st
    unfold rewardContributors
    obtain ⟨h1, h2⟩ := ih _
    exact ⟨h1, h2⟩

theorem update_balances_preserves (st : BState) (proposer_address : String)
    (contributing : List String) (txs : List Tx8) (st5 : BState)
    (h : update_balances_and_rewards st proposer_address contributing txs = some st5) :
    st5.chain = st.chain ∧ st5.pending_transactions = st.pending_transactions := by
  cases hs : settleAll8 st.balances txs with
  | none =>
    simp only [update_balances_and_rewards, hs] at h
    exact absurd h (by simp)
  | some bal =>
    simp only [update_balances_and_rewards, hs] at h
    by_cases hc : contributing.isEmpty
    · rw [if_pos hc] at h
      injection h with h
      subst h
      exact ⟨rfl, rfl⟩
    · rw [if_neg hc] at h
      injection h with h
      subst h
      obtain ⟨h1, h2⟩ := rewardContributors_preserves _ contributing _
      exact ⟨h1, h2⟩

end V8

namespace V8

/-- Case analysis of one `process_block_creation_cycle` run: every completed
call falls into exactly one of the code's five branches, with the branch
condition, outcome, slashed-address list and state effects recorded. -/
theorem cycle_cases (st st' : BState) (now : ℚ) (out : Outcome) (sl : List String)
    (hrun : process_block_creation_cycle st now = some (st', out, sl)) :
    (st.pending_transactions = [] ∧ out = .noPending ∧ st' = st ∧ sl = []) ∨
    (∃ proposer,
      st.pending_transactions ≠ [] ∧
      st.validator_nodes.get? st.current_proposer_index = some proposer ∧
      (is_compliant st.stencil proposer = false ∨ proposer.reputation < reputation_threshold) ∧
      out = .proposerSlashed ∧
      st' = slashValidator
        { st with current_proposer_index :=
            (st.current_proposer_index + 1) % st.validator_nodes.length } proposer.address ∧
      sl = [proposer.address]) ∨
    (∃ proposer,
      st.pending_transactions ≠ [] ∧
      st.validator_nodes.get? st.current_proposer_index = some proposer ∧
      is_compliant st.stencil proposer = true ∧ ¬ proposer.reputation < reputation_threshold ∧
      participating st.stencil st.neural_nodes = [] ∧
      out = .noParticipants ∧
      st'.chain = st.chain ∧ st'.pending_transactions = st.pending_transactions ∧
      st'.balances = st.balances ∧ sl = []) ∨
    (∃ proposer last,
      st.pending_transactions ≠ [] ∧
      st.validator_nodes.get? st.current_proposer_index = some proposer ∧
      is_compliant st.stencil proposer = true ∧ ¬ proposer.reputation < reputation_threshold ∧
      participating st.stencil st.neural_nodes ≠ [] ∧
      st.chain.getLast? = some last ∧
      (let txs := st.pending_transactions
       let core := VHash.cip (rnaTemplateHash proposer.address txs now) (anchorsHash last)
       let ps := participating st.stencil st.neural_nodes
       let atts := ps.map (fun n => attest n core)
       let w := winner (atts.map Att8.proof_hash)
       let sr := slashRoundGo atts w.1
         { st with
             current_proposer_index := (st.current_proposer_index + 1) % st.validator_nodes.length
             pending_transactions := [] } [] ps
       sl = sr.2 ∧
       (((w.1 ≠ core ∨ w.2 < ps.length * 2 / 3 + 1) ∧ out = .consensusFailed ∧
           st'.chain = sr.1.chain ∧
           st'.pending_transactions = sr.1.pending_transactions ++ txs ∧
           st'.balances = sr.1.balances) ∨
        ((w.1 = core ∧ ps.length * 2 / 3 + 1 ≤ w.2) ∧ out = .committed ∧
           ∃ nb st5,
             update_balances_and_rewards { sr.1 with chain := sr.1.chain ++ [nb] }
                 proposer.address
                 ((atts.filter (fun a => a.proof_hash = w.1)).map Att8.node_address) txs =
               some st5 ∧
             st' = st5)))) := by
  by_cases hp : st.pending_transactions = []
  · simp only [process_block_creation_cycle, if_pos hp] at hrun
    injection hrun with hrun
    injection hrun with h1 hrun
    injection hrun with h2 h3
    exact Or.inl ⟨hp, h2.symm, h1.symm, h3.symm⟩
  · cases hv : st.validator_nodes.get? st.current_proposer_index with
    | none =>
      simp only [process_block_creation_cycle, if_neg hp, hv] at hrun
      exact absurd hrun (by simp)
    | some proposer =>
      simp only [process_block_creation_cycle, if_neg hp, hv] at hrun
      by_cases hcomp : is_compliant st.stencil proposer = false ∨
          proposer.reputation < reputation_threshold
      · rw [if_pos hcomp] at hrun
        injection hrun with hrun
        injection hrun with h1 hrun
        injection hrun with h2 h3
        exact Or.inr (Or.inl ⟨proposer, hp, rfl, hcomp, h2.symm, h1.symm, h3.symm⟩)
      · rw [if_neg hcomp] at hrun
        push_neg at hcomp
        obtain ⟨hc0, hr⟩ := hcomp
        have hc : is_compliant st.stencil proposer = true := by simpa using hc0
        by_cases hps : participating st.stencil st.neural_nodes = []
        · rw [if_pos hps] at hrun
          injection hrun with hrun
          injection hrun with h1 hrun
          injection hrun with h2 h3
          refine Or.inr (Or.inr (Or.inl ⟨proposer, hp, rfl, hc, not_lt.mpr hr, hps, h2.symm, ?_, ?_, ?_,
            h3.symm⟩))
          · rw [← h1]
          · rw [← h1]; simp
          · rw [← h1]
        · rw [if_neg hps] at hrun
          cases hlast : st.chain.getLast? with
          | none =>
            simp only [hlast] at hrun
            exact absurd hrun (by simp)
          | some last =>
            simp only [hlast] at hrun
            refine Or.inr (Or.inr (Or.inr ⟨proposer, last, hp, rfl, hc, not_lt.mpr hr, hps, rfl, ?_⟩))
            split at hrun
            next hdec =>
              injection hrun with hrun
              injection hrun with h1 hrun
              injection hrun with h2 h3
              refine ⟨h3.symm, Or.inl ⟨hdec, h2.symm, ?_, ?_, ?_⟩⟩
              · rw [← h1]
              · rw [← h1]
              · rw [← h1]
            next hdec =>
              rw [not_or, not_not, Nat.not_lt] at hdec
              split at hrun
              next => exact absurd hrun (by simp)
              next st5 hupd =>
                injection hrun with hrun
                injection hrun with h1 hrun
                injection hrun with h2 h3
                exact ⟨h3.symm, Or.inr ⟨hdec, h2.symm, _, st5, hupd, h1.symm⟩⟩

end V8

/-- Claim C1: for every consensus round that reaches quorum evaluation with
`N` participating (eligible) attesters and completes, the round commits a
block if and only if the plurality (winning) proof hash among the collected
attestations equals the locally expected CIP proof hash *and* its tally is at
least `floor(N * 2/3) + 1`; otherwise the round does not commit, the chain is
unchanged and the pending transactions are restored. -/
theorem consensus_commit_iff (st st' : V8.BState) (now : ℚ) (proposer : V8.Node8)
    (last : V8.Block8) (out : V8.Outcome) (sl : List String) (core : V8.VHash)
    (w : V8.VHash × Nat)
    (hp : st.pending_transactions ≠ [])
    (hv : st.validator_nodes.get? st.current_proposer_index = some proposer)
    (hc : V8.is_compliant st.stencil proposer = true)
    (hr : ¬ proposer.reputation < V8.reputation_threshold)
    (hps : V8.participating st.stencil st.neural_nodes ≠ [])
    (hlast : st.chain.getLast? = some last)
    (hcore : core = V8.VHash.cip
      (V8.rnaTemplateHash proposer.address st.pending_transactions now) (V8.anchorsHash last))
    (hw : w = V8.winner (((V8.participating st.stencil st.neural_nodes).map
      (fun n => V8.attest n core)).map V8.Att8.proof_hash))
    (hrun : V8.process_block_creation_cycle st now = some (st', out, sl)) :
    (out = .committed ↔
      (w.1 = core ∧
       (V8.participating st.stencil st.neural_nodes).length * 2 / 3 + 1 ≤ w.2)) ∧
    (out = .committed → ∃ b, st'.chain = st.chain ++ [b]) ∧
    (out ≠ .committed →
      st'.chain = st.chain ∧ st'.pending_transactions = st.pending_transactions) := by
  subst hcore hw
  rcases V8.cycle_cases st st' now out sl hrun with
    ⟨h1, _⟩ | ⟨p, _, heq, hcond, _⟩ | ⟨p, _, heq, _, _, hps', _⟩ |
    ⟨p, l, _, heq, _, _, _, hlast', hbody⟩
  · exact absurd h1 hp
  · obtain rfl : proposer = p := by injection hv.symm.trans heq
    rcases hcond with hbad | hbad
    · rw [hc] at hbad; exact absurd hbad (by simp)
    · exact absurd hbad hr
  · exact absurd hps' hps
  · obtain rfl : proposer = p := by injection hv.symm.trans heq
    obtain rfl : last = l := by injection hlast.symm.trans hlast'
    obtain ⟨hsl, hcase⟩ := hbody
    rcases hcase with ⟨hdec, hout, hchain, hpend, _⟩ | ⟨hdec, hout, nb, st5, hupd, hst'⟩
    · subst hout
      refine ⟨⟨fun h => V8.Outcome.noConfusion h, fun h => ?_⟩,
        fun h => V8.Outcome.noConfusion h, fun _ => ⟨?_, ?_⟩⟩
      · rcases hdec with hd | hd
        · exact absurd h.1 hd
        · exact absurd hd (Nat.not_lt.mpr h.2)
      · rw [hchain, (V8.slashRoundGo_preserves _ _ _ _ _).1]
      · rw [hpend, (V8.slashRoundGo_preserves _ _ _ _ _).2.1]
        simp
    · subst hout hst'
      have hch := V8.update_balances_preserves _ _ _ _ _ hupd
      refine ⟨⟨fun _ => hdec, fun _ => rfl⟩, fun _ => ⟨nb, ?_⟩, fun h => absurd rfl h⟩
      rw [hch.1]
      show _ ++ [nb] = _
      rw [(V8.slashRoundGo_preserves _ _ _ _ _).1]

/-- Claim C4 (amended): every aborted consensus round (proposer slashed for
non-compliance, no eligible participants, or consensus failure) leaves the
chain unchanged and returns every pending transaction taken for the round to
the pending buffer (none is dropped); no transaction settlement is applied,
and every account balance other than the treasury account is untouched.  The
treasury balance itself *can* change on an abort: slashing the proposer or a
disagreeing attester moves stake into `balances[treasury_address]`, which is
what refutes the claim's "balances map left untouched" as stated. -/
theorem abort_preserves_round_state (st st' : V8.BState) (now : ℚ) (out : V8.Outcome)
    (sl : List String)
    (hrun : V8.process_block_creation_cycle st now = some (st', out, sl))
    (hab : out = .proposerSlashed ∨ out = .noParticipants ∨ out = .consensusFailed) :
    st'.chain = st.chain ∧
    st'.pending_transactions = st.pending_transactions ∧
    ∀ k, k ≠ V8.treasury_address → V8.bget st'.balances k = V8.bget st.balances k := by
  rcases V8.cycle_cases st st' now out sl hrun with
    ⟨_, hout, hst, _⟩ | ⟨p, _, _, _, hout, hst, _⟩ |
    ⟨p, _, _, _, _, _, hout, hchain, hpend, hbal, _⟩ |
    ⟨p, l, _, _, _, _, _, _, hbody⟩
  · subst hout
    rcases hab with h | h | h <;> exact absurd h (by decide)
  · subst hst
    have hpres := V8.slashValidator_preserves
      { st with current_proposer_index :=
          (st.current_proposer_index + 1) % st.validator_nodes.length } p.address
    exact ⟨hpres.1, hpres.2.1, fun k hk => hpres.2.2.2.2.2 k hk⟩
  · exact ⟨hchain, hpend, fun k _ => by rw [hbal]⟩
  · obtain ⟨hsl, hcase⟩ := hbody
    rcases hcase with ⟨hdec, hout, hchain, hpend, hbal⟩ | ⟨hdec, hout, nb, st5, hupd, hst'⟩
    · refine ⟨?_, ?_, ?_⟩
      · rw [hchain, (V8.slashRoundGo_preserves _ _ _ _ _).1]
      · rw [hpend, (V8.slashRoundGo_preserves _ _ _ _ _).2.1]
        simp
      · intro k hk
        rw [hbal, (V8.slashRoundGo_preserves _ _ _ _ _).2.2 k hk]
    · subst hout
      rcases hab with h | h | h <;> exact absurd h (by decide)

/-- Claim C9: in every completed consensus round, every participating
attester whose attestation's proof hash differs from the plurality (winning)
hash has `slash_node` applied to it *before* the commit/abort decision: its
address is in the slashed list no matter which outcome the round reaches —
the statement places no constraint on `out`, and the concrete witnesses
instantiate it both for a committed and for an aborted round. -/
theorem dissenters_slashed_independent_of_outcome (st st' : V8.BState) (now : ℚ)
    (proposer : V8.Node8) (last : V8.Block8) (out : V8.Outcome) (sl : List String)
    (core : V8.VHash) (w : V8.VHash × Nat) (n : V8.Node8)
    (hp : st.pending_transactions ≠ [])
    (hv : st.validator_nodes.get? st.current_proposer_index = some proposer)
    (hc : V8.is_compliant st.stencil proposer = true)
    (hr : ¬ proposer.reputation < V8.reputation_threshold)
    (hps : V8.participating st.stencil st.neural_nodes ≠ [])
    (hlast : st.chain.getLast? = some last)
    (hcore : core = V8.VHash.cip
      (V8.rnaTemplateHash proposer.address st.pending_transactions now) (V8.anchorsHash last))
    (hw : w = V8.winner (((V8.participating st.stencil st.neural_nodes).map
      (fun n => V8.attest n core)).map V8.Att8.proof_hash))
    (hnd : ((V8.participating st.stencil st.neural_nodes).map V8.Node8.address).Nodup)
    (hn : n ∈ V8.participating st.stencil st.neural_nodes)
    (hdis : (V8.attest n core).proof_hash ≠ w.1)
    (hrun : V8.process_block_creation_cycle st now = some (st', out, sl)) :
    n.address ∈ sl := by
  subst hcore hw
  rcases V8.cycle_cases st st' now out sl hrun with
    ⟨h1, _⟩ | ⟨p, _, heq, hcond, _⟩ | ⟨p, _, heq, _, _, hps', _⟩ |
    ⟨p, l, _, heq, _, _, _, hlast', hbody⟩
  · exact absurd h1 hp
  · obtain rfl : proposer = p := by injection hv.symm.trans heq
    rcases hcond with hbad | hbad
    · rw [hc] at hbad; exact absurd hbad (by simp)
    · exact absurd hbad hr
  · exact absurd hps' hps
  · obtain rfl : proposer = p := by injection hv.symm.trans heq
    obtain rfl : last = l := by injection hlast.symm.trans hlast'
    obtain ⟨hsl, _⟩ := hbody
    rw [hsl]
    refine V8.slashRoundGo_mem _ _ _ _ _ n hn ?_
    intro a hfa
    rw [V8.find_attest _ _ _ hnd hn] at hfa
    injection hfa with hfa
    rw [← hfa]
    exact hdis

/-- Counterexample to claim C4 as stated: a round aborted for proposer
non-compliance (stencil empty, outcome `proposerSlashed`) *changes* the
account balances map — the proposer's slashed stake (100) is credited to the
treasury account, which held 0 before the round. -/
theorem abort_changes_balances :
    (V8.process_block_creation_cycle V8.W4 7).map
        (fun r => (r.2.1, V8.bget r.1.balances V8.treasury_address)) =
      some (.proposerSlashed, 100) ∧
    V8.bget V8.W4.balances V8.treasury_address = 0 := by
  constructor
  · norm_num +decide [V8.process_block_creation_cycle, V8.W4, V8.W1, V8.wVal, V8.mkNode,
      V8.is_compliant, V8.slashValidator, V8.slashInList, V8.slash_node, V8.bget, V8.bset,
      V8.treasury_address, V8.slashing_penalty, V8.wStencil]
  · decide

/-- Witness for C1 at the concrete committed round `W1` (5 participating
attesters, 4 honest, threshold 4): the outcome is `committed` precisely
because the winning hash equals the expected CIP hash with tally 4 ≥ 4. -/
theorem consensus_commit_iff_witness :
    (V8.W1res.2.1 = .committed ↔
      (V8.W1w.1 = V8.W1core ∧
       (V8.participating V8.W1.stencil V8.W1.neural_nodes).length * 2 / 3 + 1 ≤ V8.W1w.2)) ∧
    (V8.W1res.2.1 = .committed → ∃ b, V8.W1res.1.chain = V8.W1.chain ++ [b]) ∧
    (V8.W1res.2.1 ≠ .committed → V8.W1res.1.chain = V8.W1.chain ∧
      V8.W1res.1.pending_transactions = V8.W1.pending_transactions) :=
  consensus_commit_iff V8.W1 V8.W1res.1 7 V8.wVal (V8.create_genesis_block 0)
    V8.W1res.2.1 V8.W1res.2.2 V8.W1core V8.W1w
    (by decide) rfl (by decide) (by decide) (by decide) (by decide) rfl rfl
    (opt_eq_some_getD _ (V8.W1, .noPending, []) (by decide))

/-- Witness for C4 (amended) at the concrete aborted round `W4` (proposer
slashed): chain, pending buffer and all non-treasury balances preserved. -/
theorem abort_preserves_round_state_witness :
    V8.W4res.1.chain = V8.W4.chain ∧
    V8.W4res.1.pending_transactions = V8.W4.pending_transactions ∧
    ∀ k, k ≠ V8.treasury_address → V8.bget V8.W4res.1.balances k = V8.bget V8.W4.balances k :=
  abort_preserves_round_state V8.W4 V8.W4res.1 7 V8.W4res.2.1 V8.W4res.2.2
    (opt_eq_some_getD _ (V8.W4, .noPending, []) (by decide)) (by decide)

/-- Witness for C9: in the committed round `W1` the dishonest attester is
slashed even though the round commits, and in the aborted round `W5` (where
the fake hash wins the plurality) the *honest* dissenter from the winning
hash is slashed — the slashing is independent of the round's outcome. -/
theorem dissenters_slashed_witness :
    (V8.wBad.address ∈ V8.W1res.2.2 ∧ V8.W1res.2.1 = .committed) ∧
    (V8.wN1.address ∈ V8.W5res.2.2 ∧ V8.W5res.2.1 = .consensusFailed) :=
  ⟨⟨dissenters_slashed_independent_of_outcome V8.W1 V8.W1res.1 7 V8.wVal
      (V8.create_genesis_block 0) V8.W1res.2.1 V8.W1res.2.2 V8.W1core V8.W1w V8.wBad
      (by decide) rfl (by decide) (by decide) (by decide) (by decide) rfl rfl
      (by decide) (by decide) (by decide)
      (opt_eq_some_getD _ (V8.W1, .noPending, []) (by decide)), by decide⟩,
   ⟨dissenters_slashed_independent_of_outcome V8.W5 V8.W5res.1 7 V8.wVal
      (V8.create_genesis_block 0) V8.W5res.2.1 V8.W5res.2.2 V8.W5core V8.W5w V8.wN1
      (by decide) rfl (by decide) (by decide) (by decide) (by decide) rfl rfl
      (by decide) (by decide) (by decide)
      (opt_eq_some_getD _ (V8.W5, .noPending, []) (by decide)), by decide⟩⟩
